import Mathlib

/-!
# Verification of the zeroclaw `integrations` module

Shallow embedding of `src/integrations/mod.rs`: the integration catalog
data model, the category/status filter normalizer, and the three query
operations (`list_integrations`, `search_integrations`,
`show_integration_info`).

Modelling conventions:
* Rust `&'static str` is Lean `String`; `to_lowercase` is modelled
  per-character via `strToLower` (mapping `Char.toLower` over the
  characters, faithful on the ASCII data the module manipulates).
* `replace('-', "")` (a char pattern replaced by the empty string)
  removes every occurrence of that character, modelled as a `List.filter`
  on the string's characters.
* The catalog `registry::all_integrations()` is an arbitrary list of
  entries, and `Config` an arbitrary type: the query functions are
  parametric in both, exactly as they only consume the catalog through
  iteration and the config through each entry's `status_fn`.
* `anyhow::bail!` errors are modelled as structured error values carrying
  exactly the data interpolated into the message.
* Rust's `BTreeMap<IntegrationCategory, Vec<_>>` iterates its keys in
  ascending derived `Ord` order, i.e. enum declaration order; this is
  modelled by iterating `IntegrationCategory.all` (declaration order) and
  dropping the categories whose bucket is empty, which is extensionally
  the same traversal.
-/

/-- Integration status (`IntegrationStatus` in `mod.rs`). -/
inductive IntegrationStatus where
  | Available
  | Active
  | ComingSoon
deriving DecidableEq, Repr, Fintype

/-- Integration category (`IntegrationCategory` in `mod.rs`),
constructors in source declaration order. -/
inductive IntegrationCategory where
  | Chat
  | AiModel
  | Productivity
  | MusicAudio
  | SmartHome
  | ToolsAutomation
  | MediaCreative
  | Social
  | Platform
deriving DecidableEq, Repr, Fintype

namespace IntegrationCategory

/-- Display label (`IntegrationCategory::label`). -/
def label : IntegrationCategory → String
  | Chat => "Chat Providers"
  | AiModel => "AI Models"
  | Productivity => "Productivity"
  | MusicAudio => "Music & Audio"
  | SmartHome => "Smart Home"
  | ToolsAutomation => "Tools & Automation"
  | MediaCreative => "Media & Creative"
  | Social => "Social"
  | Platform => "Platforms"

/-- `IntegrationCategory::all`: every variant, in declaration order. -/
def all : List IntegrationCategory :=
  [Chat, AiModel, Productivity, MusicAudio, SmartHome,
   ToolsAutomation, MediaCreative, Social, Platform]

/-- The rank of a category in declaration order; the derived Rust `Ord`
on the fieldless enum compares these discriminants. -/
def rank : IntegrationCategory → Nat
  | Chat => 0
  | AiModel => 1
  | Productivity => 2
  | MusicAudio => 3
  | SmartHome => 4
  | ToolsAutomation => 5
  | MediaCreative => 6
  | Social => 7
  | Platform => 8

end IntegrationCategory

/-- A registered integration (`IntegrationEntry`), parametric in the
config type; `status_fn` is the per-entry status evaluator. -/
structure IntegrationEntry (Config : Type) where
  name : String
  description : String
  category : IntegrationCategory
  status_fn : Config → IntegrationStatus

/-- The structured content of the `anyhow::bail!` filter error message:
the original input string and the displayed list of valid option
tokens. -/
structure FilterError where
  input : String
  validOptions : List String
deriving DecidableEq, Repr

/-- Rust `str::to_lowercase`, modelled per character. -/
def strToLower (s : String) : String :=
  ⟨s.data.map Char.toLower⟩

/-- Normalization applied by both filter parsers:
`input.to_lowercase().replace('-', "").replace('_', "")`.
Each `replace(c, "")` deletes every occurrence of the character `c`. -/
def normalizeStr (input : String) : String :=
  ⟨((strToLower input).data.filter (fun c => c ≠ '-')).filter (fun c => c ≠ '_')⟩

/-- The valid-options list shown by `parse_category_filter`'s error. -/
def validCategoryOptions : List String :=
  ["chat", "ai", "productivity", "music", "smart-home",
   "tools", "media", "social", "platforms"]

/-- The valid-options list shown by `parse_status_filter`'s error
(`"active, available, coming-soon"`). -/
def validStatusOptions : List String :=
  ["active", "available", "coming-soon"]

/-- The alias match of `parse_category_filter`: the `match` on the
normalized string, branch by branch in source order. -/
def categoryAliasLookup (n : String) : Option IntegrationCategory :=
  if n = "chat" ∨ n = "chatproviders" ∨ n = "messaging" then
    some .Chat
  else if n = "ai" ∨ n = "aimodels" ∨ n = "aimodel" ∨ n = "models" ∨ n = "llm" ∨ n = "llms" then
    some .AiModel
  else if n = "productivity" ∨ n = "prod" then
    some .Productivity
  else if n = "music" ∨ n = "musicaudio" ∨ n = "audio" then
    some .MusicAudio
  else if n = "smarthome" ∨ n = "home" ∨ n = "iot" then
    some .SmartHome
  else if n = "tools" ∨ n = "toolsautomation" ∨ n = "automation" then
    some .ToolsAutomation
  else if n = "media" ∨ n = "mediacreative" ∨ n = "creative" then
    some .MediaCreative
  else if n = "social" then
    some .Social
  else if n = "platforms" ∨ n = "platform" then
    some .Platform
  else
    none

/-- Source `parse_category_filter`: normalize, match against the alias table,
else bail with the original input and the fixed valid-options list. -/
def parse_category_filter (input : String) : Except FilterError IntegrationCategory :=
  match categoryAliasLookup (normalizeStr input) with
  | some c => .ok c
  | none => .error ⟨input, validCategoryOptions⟩

/-- The alias match of `parse_status_filter`. -/
def statusAliasLookup (n : String) : Option IntegrationStatus :=
  if n = "active" ∨ n = "enabled" ∨ n = "on" then
    some .Active
  else if n = "available" ∨ n = "ready" ∨ n = "off" then
    some .Available
  else if n = "comingsoon" ∨ n = "soon" ∨ n = "planned" ∨ n = "todo" then
    some .ComingSoon
  else
    none

/-- Source `parse_status_filter`. -/
def parse_status_filter (input : String) : Except FilterError IntegrationStatus :=
  match statusAliasLookup (normalizeStr input) with
  | some s => .ok s
  | none => .error ⟨input, validStatusOptions⟩

/-- Helper for `filter.map(parse).transpose()?` as used by both `list_integrations`
and `search_integrations` on their optional filter arguments. -/
def transposeParse {ε α : Type} (p : String → Except ε α) :
    Option String → Except ε (Option α)
  | none => .ok none
  | some s => (p s).map some

/-- Whether `pat` starts `hay`, on character lists, written out structurally. -/
def leadsWith : List Char → List Char → Bool
  | [], _ => true
  | _ :: _, [] => false
  | p :: ps, h :: hs => p == h && leadsWith ps hs

/-- Rust `str::contains` with a string pattern: `pat` occurs as a
contiguous substring of `hay` (naive scan over every start position). -/
def containsSub (pat : List Char) : List Char → Bool
  | [] => leadsWith pat []
  | h :: t => leadsWith pat (h :: t) || containsSub pat t

/-- The per-entry filter test appearing (as two textually identical
`if let Some(...) { ... }` blocks) in both `list_integrations` and
`search_integrations`: category check first, then status check against
the evaluated status. -/
def passesFilters {Config : Type} (config : Config)
    (category_match : Option IntegrationCategory)
    (status_match : Option IntegrationStatus)
    (entry : IntegrationEntry Config) : Bool :=
  (match category_match with
   | some cat => entry.category == cat
   | none => true) &&
  (match status_match with
   | some status => entry.status_fn config == status
   | none => true)

/-- Source `list_integrations` up to presentation: parse both filters
(propagating errors via `?`), keep the entries passing both filters,
group them into a `BTreeMap` keyed by category — iterated here as the
declaration-ordered `IntegrationCategory.all` with empty buckets
dropped, which is the `BTreeMap`'s key-ascending traversal — and within
each bucket preserve catalog order. -/
def list_integrations {Config : Type} (entries : List (IntegrationEntry Config))
    (config : Config) (category_filter status_filter : Option String) :
    Except FilterError (List (IntegrationCategory × List (IntegrationEntry Config))) :=
  match transposeParse parse_category_filter category_filter with
  | .error err => .error err
  | .ok category_match =>
    match transposeParse parse_status_filter status_filter with
    | .error err => .error err
    | .ok status_match =>
      let surviving := entries.filter (passesFilters config category_match status_match)
      .ok (IntegrationCategory.all.filterMap (fun cat =>
        let bucket := surviving.filter (fun e => e.category == cat)
        if bucket.isEmpty then none else some (cat, bucket)))

/-- Lexicographic order on character lists: the order `sort_by_key`
uses on `&str` keys (byte-wise on UTF-8, which coincides with
code-point order). -/
def charListLe : List Char → List Char → Bool
  | [], _ => true
  | _ :: _, [] => false
  | a :: as, b :: bs => a < b || (a == b && charListLe as bs)

/-- Source `search_integrations` up to presentation: parse both filters, keep
the entries whose lowercased name or description contains the lowercased
query and which pass both filters, then sort by name
(`results.sort_by_key(|e| e.name)`, a stable sort in ascending
byte-wise key order, modelled by a stable merge sort under
`charListLe`). -/
def search_integrations {Config : Type} (entries : List (IntegrationEntry Config))
    (config : Config) (query : String)
    (category_filter status_filter : Option String) :
    Except FilterError (List (IntegrationEntry Config)) :=
  let query_lower := strToLower query
  match transposeParse parse_category_filter category_filter with
  | .error err => .error err
  | .ok category_match =>
    match transposeParse parse_status_filter status_filter with
    | .error err => .error err
    | .ok status_match =>
      let results := entries.filter (fun entry =>
        (containsSub query_lower.data (strToLower entry.name).data
          || containsSub query_lower.data (strToLower entry.description).data)
        && passesFilters config category_match status_match entry)
      .ok (results.mergeSort (fun a b => charListLe a.name.data b.name.data))

/-- The `anyhow::bail!("Unknown integration: {name}. ...")` failure of
`show_integration_info`, carrying the requested name. -/
inductive InfoError where
  | UnknownIntegration (name : String)
deriving DecidableEq, Repr

/-- Source `show_integration_info` up to presentation: first catalog entry
whose lowercased name equals the lowercased request, together with its
evaluated status; otherwise the unknown-integration error. -/
def show_integration_info {Config : Type} (entries : List (IntegrationEntry Config))
    (config : Config) (name : String) :
    Except InfoError (IntegrationEntry Config × IntegrationStatus) :=
  let name_lower := strToLower name
  match entries.find? (fun e => strToLower e.name == name_lower) with
  | none => .error (.UnknownIntegration name)
  | some entry => .ok (entry, entry.status_fn config)

/-- Modelled from the spec (section 4.1 alias table): the category alias
lists, written as the spec states them, for comparison against the
source's `parse_category_filter`. -/
def specCategoryAliases : IntegrationCategory → List String
  | .Chat => ["chat", "chatproviders", "messaging"]
  | .AiModel => ["ai", "aimodels", "aimodel", "models", "llm", "llms"]
  | .Productivity => ["productivity", "prod"]
  | .MusicAudio => ["music", "musicaudio", "audio"]
  | .SmartHome => ["smarthome", "home", "iot"]
  | .ToolsAutomation => ["tools", "toolsautomation", "automation"]
  | .MediaCreative => ["media", "mediacreative", "creative"]
  | .Social => ["social"]
  | .Platform => ["platforms", "platform"]

/-- Modelled from the spec (section 4.1): the status alias lists. -/
def specStatusAliases : IntegrationStatus → List String
  | .Active => ["active", "enabled", "on"]
  | .Available => ["available", "ready", "off"]
  | .ComingSoon => ["comingsoon", "soon", "planned", "todo"]

/-- Modelled from the spec (section 4.1): "lowercase the input, then
remove all hyphen and underscore characters", as a single pass. -/
def specNormalize (s : String) : String :=
  ⟨(strToLower s).data.filter (fun c => c ≠ '-' ∧ c ≠ '_')⟩

/-! ## Helper lemmas on the filter normalizer -/

theorem normalizeStr_eq_specNormalize (s : String) :
    normalizeStr s = specNormalize s := by
  unfold normalizeStr specNormalize
  congr 1
  rw [List.filter_filter]
  congr 1
  funext c
  by_cases h1 : c = '-' <;> by_cases h2 : c = '_' <;> simp [h1, h2]

theorem categoryAliasLookup_iff (n : String) (c : IntegrationCategory) :
    categoryAliasLookup n = some c ↔ n ∈ specCategoryAliases c := by
  unfold categoryAliasLookup
  split_ifs with h1 h2 h3 h4 h5 h6 h7 h8 h9 <;>
    cases c <;>
    simp_all [specCategoryAliases] <;>
    casesm* _ ∨ _ <;> subst_vars <;> decide

theorem statusAliasLookup_iff (n : String) (st : IntegrationStatus) :
    statusAliasLookup n = some st ↔ n ∈ specStatusAliases st := by
  unfold statusAliasLookup
  split_ifs with h1 h2 h3 <;>
    cases st <;>
    simp_all [specStatusAliases] <;>
    casesm* _ ∨ _ <;> subst_vars <;> decide

theorem parse_category_filter_ok_iff (s : String) (c : IntegrationCategory) :
    parse_category_filter s = .ok c ↔ categoryAliasLookup (normalizeStr s) = some c := by
  unfold parse_category_filter
  cases h : categoryAliasLookup (normalizeStr s) <;> simp

theorem parse_status_filter_ok_iff (s : String) (st : IntegrationStatus) :
    parse_status_filter s = .ok st ↔ statusAliasLookup (normalizeStr s) = some st := by
  unfold parse_status_filter
  cases h : statusAliasLookup (normalizeStr s) <;> simp

/-- C1: category and status filter normalization lowercases the input,
removes all hyphens and underscores, and then looks the result up by
exact equality in the fixed alias table: it succeeds with canonical
value `c` exactly when the normalized input is one of `c`'s listed
aliases, with no partial or fuzzy matching. -/
theorem C1_normalization_exact_alias_table (s : String) :
    normalizeStr s = specNormalize s ∧
    (∀ c : IntegrationCategory,
      parse_category_filter s = .ok c ↔ normalizeStr s ∈ specCategoryAliases c) ∧
    (∀ st : IntegrationStatus,
      parse_status_filter s = .ok st ↔ normalizeStr s ∈ specStatusAliases st) := by
  refine ⟨normalizeStr_eq_specNormalize s, fun c => ?_, fun st => ?_⟩
  · rw [parse_category_filter_ok_iff, categoryAliasLookup_iff]
  · rw [parse_status_filter_ok_iff, statusAliasLookup_iff]

/-- Whether an `Except` computation succeeded. -/
def exceptOk {ε α : Type} : Except ε α → Bool
  | .ok _ => true
  | .error _ => false

theorem categoryAliasLookup_none (n : String)
    (h : ∀ c : IntegrationCategory, n ∉ specCategoryAliases c) :
    categoryAliasLookup n = none := by
  cases hl : categoryAliasLookup n with
  | none => rfl
  | some c => exact absurd ((categoryAliasLookup_iff n c).mp hl) (h c)

theorem statusAliasLookup_none (n : String)
    (h : ∀ st : IntegrationStatus, n ∉ specStatusAliases st) :
    statusAliasLookup n = none := by
  cases hl : statusAliasLookup n with
  | none => rfl
  | some st => exact absurd ((statusAliasLookup_iff n st).mp hl) (h st)

/-- C7: when the normalized input matches no alias of the category
(respectively status) table, the parser fails with an error carrying
the original unnormalized input verbatim together with the fixed list
of canonical option tokens: the 9 category tokens, respectively the 3
status tokens. -/
theorem C7_invalid_filter_error_payload (s : String) :
    ((∀ c : IntegrationCategory, normalizeStr s ∉ specCategoryAliases c) →
      parse_category_filter s =
        .error ⟨s, ["chat", "ai", "productivity", "music", "smart-home",
                    "tools", "media", "social", "platforms"]⟩) ∧
    ((∀ st : IntegrationStatus, normalizeStr s ∉ specStatusAliases st) →
      parse_status_filter s =
        .error ⟨s, ["active", "available", "coming-soon"]⟩) := by
  constructor
  · intro h
    unfold parse_category_filter
    rw [categoryAliasLookup_none _ h]
    rfl
  · intro h
    unfold parse_status_filter
    rw [statusAliasLookup_none _ h]
    rfl

theorem C7_invalid_filter_error_payload_witness :
    parse_category_filter "bogus" =
      .error ⟨"bogus", ["chat", "ai", "productivity", "music", "smart-home",
                        "tools", "media", "social", "platforms"]⟩ ∧
    parse_status_filter "bogus" =
      .error ⟨"bogus", ["active", "available", "coming-soon"]⟩ :=
  ⟨(C7_invalid_filter_error_payload "bogus").1 (by decide),
   (C7_invalid_filter_error_payload "bogus").2 (by decide)⟩

/-- C9: two inputs with the same normalized form (lowercased, hyphens
and underscores removed) have the same parse outcome for both the
category and the status filter: the same canonical value on success,
and success/failure agree; only the error payload can differ. -/
theorem C9_normalization_invariance (s s' : String)
    (c : IntegrationCategory) (st : IntegrationStatus)
    (h : specNormalize s = specNormalize s') :
    (parse_category_filter s = .ok c ↔ parse_category_filter s' = .ok c) ∧
    exceptOk (parse_category_filter s) = exceptOk (parse_category_filter s') ∧
    (parse_status_filter s = .ok st ↔ parse_status_filter s' = .ok st) ∧
    exceptOk (parse_status_filter s) = exceptOk (parse_status_filter s') := by
  have hn : normalizeStr s = normalizeStr s' := by
    rw [normalizeStr_eq_specNormalize, normalizeStr_eq_specNormalize, h]
  unfold parse_category_filter parse_status_filter
  rw [hn]
  cases categoryAliasLookup (normalizeStr s') <;>
    cases statusAliasLookup (normalizeStr s') <;>
    simp [exceptOk]

theorem C9_normalization_invariance_witness :
    (parse_category_filter "Smart-Home" = .ok .SmartHome ↔
      parse_category_filter "smart_home" = .ok .SmartHome) ∧
    exceptOk (parse_category_filter "Smart-Home") =
      exceptOk (parse_category_filter "smart_home") ∧
    (parse_status_filter "Smart-Home" = .ok .Active ↔
      parse_status_filter "smart_home" = .ok .Active) ∧
    exceptOk (parse_status_filter "Smart-Home") =
      exceptOk (parse_status_filter "smart_home") :=
  C9_normalization_invariance "Smart-Home" "smart_home" .SmartHome .Active (by decide)

/-! ## Info lookup (C4, C10) -/

/-- A small concrete catalog used to instantiate the general theorems. -/
def tgEntry : IntegrationEntry Unit :=
  ⟨"Telegram", "Telegram bot channel", .Chat, fun _ => .Available⟩

/-- A deliberately colliding second entry: its name equals `tgEntry`'s
under case-insensitive comparison. -/
def tgShout : IntegrationEntry Unit :=
  ⟨"TELEGRAM", "Shouted duplicate", .Chat, fun _ => .ComingSoon⟩

/-- Another concrete entry. -/
def orEntry : IntegrationEntry Unit :=
  ⟨"OpenRouter", "Unified model router", .AiModel, fun _ => .Active⟩

/-- Restating `show_integration_info` as a top-level match, for rewriting. -/
theorem show_integration_info_eq {Config : Type}
    (entries : List (IntegrationEntry Config)) (config : Config) (name : String) :
    show_integration_info entries config name =
      match entries.find? (fun e => strToLower e.name == strToLower name) with
      | none => .error (.UnknownIntegration name)
      | some entry => .ok (entry, entry.status_fn config) := rfl

/-- C4: Info matches by case-insensitive exact equality of the full
name: when some entry matches, a matching entry with its evaluated
status is returned; the `UnknownIntegration` error naming the request
occurs exactly when no entry matches, and every failure is that
error. -/
theorem C4_info_exact_match {Config : Type}
    (entries : List (IntegrationEntry Config)) (config : Config) (name : String) :
    ((∃ e ∈ entries, strToLower e.name = strToLower name) →
      ∃ e, e ∈ entries ∧ strToLower e.name = strToLower name ∧
        show_integration_info entries config name = .ok (e, e.status_fn config)) ∧
    (show_integration_info entries config name = .error (.UnknownIntegration name) ↔
      ∀ e ∈ entries, strToLower e.name ≠ strToLower name) ∧
    (∀ err, show_integration_info entries config name = .error err →
      err = .UnknownIntegration name) := by
  rw [show_integration_info_eq]
  cases hf : entries.find? (fun e => strToLower e.name == strToLower name) with
  | none =>
    rw [List.find?_eq_none] at hf
    refine ⟨fun ⟨e, he, hn⟩ => absurd hn (by simpa using hf e he), ?_, ?_⟩
    · simpa using fun e he => by simpa using hf e he
    · intro err herr
      simpa using herr.symm
  | some e =>
    have hmem := List.mem_of_find?_eq_some hf
    have hname : strToLower e.name = strToLower name := by
      simpa using List.find?_some hf
    refine ⟨fun _ => ⟨e, hmem, hname, rfl⟩, ?_, ?_⟩
    · simp only [reduceCtorEq, false_iff, not_forall]
      exact ⟨e, hmem, fun h => h hname⟩
    · intro err herr
      cases herr

/-- Witness for C4 at a concrete catalog and request. -/
theorem C4_info_exact_match_witness :
    ((∃ e ∈ [tgEntry, orEntry], strToLower e.name = strToLower "telegram") →
      ∃ e, e ∈ [tgEntry, orEntry] ∧ strToLower e.name = strToLower "telegram" ∧
        show_integration_info [tgEntry, orEntry] () "telegram" = .ok (e, e.status_fn ())) ∧
    (show_integration_info [tgEntry, orEntry] () "telegram" =
        .error (.UnknownIntegration "telegram") ↔
      ∀ e ∈ [tgEntry, orEntry], strToLower e.name ≠ strToLower "telegram") ∧
    (∀ err, show_integration_info [tgEntry, orEntry] () "telegram" = .error err →
      err = .UnknownIntegration "telegram") :=
  C4_info_exact_match [tgEntry, orEntry] () "telegram"

/-- C10: when several catalog entries share a name up to case, Info
does not fail and performs no startup rejection: it returns the first
matching entry in catalog declaration order, with its evaluated
status. -/
theorem C10_info_first_match {Config : Type}
    (pre post : List (IntegrationEntry Config)) (e : IntegrationEntry Config)
    (config : Config) (name : String)
    (hpre : ∀ e' ∈ pre, strToLower e'.name ≠ strToLower name)
    (he : strToLower e.name = strToLower name) :
    show_integration_info (pre ++ e :: post) config name =
      .ok (e, e.status_fn config) := by
  rw [show_integration_info_eq, List.find?_append]
  have h1 : pre.find? (fun e' => strToLower e'.name == strToLower name) = none := by
    rw [List.find?_eq_none]
    intro a ha
    simpa using hpre a ha
  have h2 : (e :: post).find? (fun e' => strToLower e'.name == strToLower name) = some e :=
    List.find?_cons_of_pos _ (by simpa using he)
  rw [h1, h2]
  rfl

/-- Witness for C10: a catalog with two case-insensitively colliding
names resolves to the first one, in declaration order. -/
theorem C10_info_first_match_witness :
    show_integration_info [tgEntry, tgShout] () "telegram" =
      .ok (tgEntry, tgEntry.status_fn ()) :=
  C10_info_first_match [] [tgShout] tgEntry () "telegram" (by simp) (by decide)

/-! ## List grouping (C2, C5) -/

theorem IntegrationCategory.mem_all (c : IntegrationCategory) :
    c ∈ IntegrationCategory.all := by
  cases c <;> simp [IntegrationCategory.all]

/-- The grouped result `list_integrations` produces on success: for
each category in declaration order, the surviving entries of that
category in catalog order, empty groups dropped. -/
def groupsFor {Config : Type} (entries : List (IntegrationEntry Config))
    (config : Config) (category_match : Option IntegrationCategory)
    (status_match : Option IntegrationStatus) :
    List (IntegrationCategory × List (IntegrationEntry Config)) :=
  IntegrationCategory.all.filterMap (fun cat =>
    if ((entries.filter (passesFilters config category_match status_match)).filter
        (fun e => e.category == cat)).isEmpty then none
    else some (cat, (entries.filter (passesFilters config category_match status_match)).filter
        (fun e => e.category == cat)))

theorem list_integrations_ok {Config : Type} (entries : List (IntegrationEntry Config))
    (config : Config) (cf sf : Option String)
    (cm : Option IntegrationCategory) (sm : Option IntegrationStatus)
    (hc : transposeParse parse_category_filter cf = .ok cm)
    (hs : transposeParse parse_status_filter sf = .ok sm) :
    list_integrations entries config cf sf = .ok (groupsFor entries config cm sm) := by
  unfold list_integrations groupsFor
  rw [hc, hs]

theorem passesFilters_iff {Config : Type} (config : Config)
    (cm : Option IntegrationCategory) (sm : Option IntegrationStatus)
    (e : IntegrationEntry Config) :
    passesFilters config cm sm e = true ↔
      ((cm = none ∨ cm = some e.category) ∧
       (sm = none ∨ sm = some (e.status_fn config))) := by
  cases cm <;> cases sm <;> simp [passesFilters] <;> aesop

theorem groupsFor_mem_iff {Config : Type} (entries : List (IntegrationEntry Config))
    (config : Config) (cm : Option IntegrationCategory)
    (sm : Option IntegrationStatus) (e : IntegrationEntry Config) :
    (∃ p ∈ groupsFor entries config cm sm, e ∈ p.2) ↔
      e ∈ entries ∧ passesFilters config cm sm e = true := by
  unfold groupsFor
  simp only [List.mem_filterMap]
  constructor
  · rintro ⟨p, ⟨cat, hcmem, hcat⟩, hep⟩
    split at hcat
    · exact absurd hcat (by simp)
    · cases hcat
      have := List.mem_filter.mp hep
      exact List.mem_filter.mp this.1
  · rintro ⟨he, hpass⟩
    have hbe : e ∈ (entries.filter (passesFilters config cm sm)).filter
        (fun e' => e'.category == e.category) := by
      rw [List.mem_filter, List.mem_filter]
      exact ⟨⟨he, hpass⟩, by simp⟩
    refine ⟨(e.category, (entries.filter (passesFilters config cm sm)).filter
        (fun e' => e'.category == e.category)),
      ⟨e.category, IntegrationCategory.mem_all _, ?_⟩, hbe⟩
    rw [if_neg (by
      simp only [Bool.not_eq_true, List.isEmpty_eq_false]
      exact List.ne_nil_of_mem hbe)]

/-- C2: with valid (normalizing) filters, List succeeds — an empty
filtered result included — and a catalog entry appears in the grouped
result exactly when it passes the category test (no filter, or equal
category) and the status test (no filter, or evaluated status equal). -/
theorem C2_list_inclusion_iff {Config : Type} (entries : List (IntegrationEntry Config))
    (config : Config) (cf sf : Option String)
    (cm : Option IntegrationCategory) (sm : Option IntegrationStatus)
    (hc : transposeParse parse_category_filter cf = .ok cm)
    (hs : transposeParse parse_status_filter sf = .ok sm) :
    ∃ groups, list_integrations entries config cf sf = .ok groups ∧
      ∀ e, (∃ p ∈ groups, e ∈ p.2) ↔
        (e ∈ entries ∧
         (cm = none ∨ cm = some e.category) ∧
         (sm = none ∨ sm = some (e.status_fn config))) := by
  refine ⟨groupsFor entries config cm sm,
    list_integrations_ok entries config cf sf cm sm hc hs, fun e => ?_⟩
  rw [groupsFor_mem_iff, passesFilters_iff]

/-- Witness for C2: a concrete catalog, a category filter alias and a
status filter alias that both normalize. -/
theorem C2_list_inclusion_iff_witness :
    ∃ groups, list_integrations [tgEntry, tgShout, orEntry] () (some "CHAT") (some "on") =
        .ok groups ∧
      ∀ e, (∃ p ∈ groups, e ∈ p.2) ↔
        (e ∈ [tgEntry, tgShout, orEntry] ∧
         (some IntegrationCategory.Chat = none ∨
          some IntegrationCategory.Chat = some e.category) ∧
         (some IntegrationStatus.Active = none ∨
          some IntegrationStatus.Active = some (e.status_fn ()))) :=
  C2_list_inclusion_iff [tgEntry, tgShout, orEntry] () (some "CHAT") (some "on")
    (some .Chat) (some .Active) rfl rfl

theorem map_fst_filterMap_sublist {α β : Type _} (f : α → Option (α × β))
    (hf : ∀ a p, f a = some p → p.1 = a) (l : List α) :
    List.Sublist ((l.filterMap f).map Prod.fst) l := by
  induction l with
  | nil => simp
  | cons a t ih =>
    rw [List.filterMap_cons]
    cases hfa : f a with
    | none => exact ih.cons a
    | some p =>
      rw [List.map_cons, hf a p hfa]
      exact ih.cons₂ a

theorem groupsFor_map_fst_sublist {Config : Type} (entries : List (IntegrationEntry Config))
    (config : Config) (cm : Option IntegrationCategory) (sm : Option IntegrationStatus) :
    List.Sublist ((groupsFor entries config cm sm).map Prod.fst) IntegrationCategory.all := by
  unfold groupsFor
  refine map_fst_filterMap_sublist _ (fun a p hp => ?_) _
  split at hp
  · exact absurd hp (by simp)
  · cases hp
    rfl

theorem groupsFor_group_shape {Config : Type} (entries : List (IntegrationEntry Config))
    (config : Config) (cm : Option IntegrationCategory) (sm : Option IntegrationStatus) :
    ∀ p ∈ groupsFor entries config cm sm,
      List.Sublist p.2 entries ∧ p.2 ≠ [] ∧ ∀ e ∈ p.2, e.category = p.1 := by
  intro p hp
  unfold groupsFor at hp
  rw [List.mem_filterMap] at hp
  obtain ⟨cat, _, hcat⟩ := hp
  split at hcat
  · exact absurd hcat (by simp)
  · cases hcat
    rename_i hne
    refine ⟨(List.filter_sublist _).trans (List.filter_sublist _), ?_, ?_⟩
    · simpa [Bool.not_eq_true, List.isEmpty_eq_false] using hne
    · intro e he'
      simpa using (List.mem_filter.mp he').2

theorem passesFilters_none_none {Config : Type} (config : Config)
    (entries : List (IntegrationEntry Config)) :
    entries.filter (passesFilters config none none) = entries :=
  List.filter_eq_self.mpr (fun a _ => by simp [passesFilters])

theorem perm_filter_or {α : Type _} (p q : α → Bool)
    (hdisj : ∀ a, p a = true → q a = false) (l : List α) :
    List.Perm (l.filter p ++ l.filter q) (l.filter (fun a => p a || q a)) := by
  induction l with
  | nil => simp
  | cons a t ih =>
    cases hp : p a <;> cases hq : q a
    · simpa [List.filter_cons, hp, hq] using ih
    · simpa [List.filter_cons, hp, hq] using List.Perm.trans List.perm_middle (ih.cons a)
    · simpa [List.filter_cons, hp, hq] using ih.cons a
    · exact absurd (hdisj a hp) (by simp [hq])

theorem buckets_flatten_perm {Config : Type} (l : List (IntegrationEntry Config)) :
    ∀ cs : List IntegrationCategory, cs.Nodup →
      List.Perm ((cs.map (fun cat => l.filter (fun e => e.category == cat))).flatten)
        (l.filter (fun e => decide (e.category ∈ cs))) := by
  intro cs
  induction cs with
  | nil => simp
  | cons c t ih =>
    intro hnd
    rw [List.map_cons, List.flatten_cons]
    have hd : c ∉ t := (List.nodup_cons.mp hnd).1
    have h1 := ih (List.nodup_cons.mp hnd).2
    have h2 : List.Perm
        (l.filter (fun e => e.category == c) ++ l.filter (fun e => decide (e.category ∈ t)))
        (l.filter (fun a => (a.category == c) || decide (a.category ∈ t))) := by
      refine perm_filter_or _ _ (fun a ha => ?_) l
      have hac : a.category = c := by simpa using ha
      simp [hac, hd]
    have h3 : l.filter (fun a => (a.category == c) || decide (a.category ∈ t)) =
        l.filter (fun e => decide (e.category ∈ c :: t)) := by
      congr 1
      funext a
      by_cases h : a.category = c <;> simp [h, List.mem_cons]
    rw [← h3]
    exact (List.Perm.append_left _ h1).trans h2

theorem groupsFor_flatten_eq {Config : Type} (entries : List (IntegrationEntry Config))
    (config : Config) (cm : Option IntegrationCategory) (sm : Option IntegrationStatus) :
    ((groupsFor entries config cm sm).map Prod.snd).flatten =
      (IntegrationCategory.all.map (fun cat =>
        (entries.filter (passesFilters config cm sm)).filter
          (fun e => e.category == cat))).flatten := by
  unfold groupsFor
  generalize IntegrationCategory.all = cs
  induction cs with
  | nil => simp
  | cons c t ih =>
    rw [List.filterMap_cons, List.map_cons, List.flatten_cons]
    split
    · rename_i heq
      have hb : (entries.filter (passesFilters config cm sm)).filter
          (fun e => e.category == c) = [] := by
        by_cases hemp : ((entries.filter (passesFilters config cm sm)).filter
            (fun e => e.category == c)).isEmpty = true
        · simpa [List.isEmpty_iff] using hemp
        · rw [if_neg hemp] at heq
          exact absurd heq (by simp)
      rw [hb, List.nil_append, ih]
    · rename_i b heq
      rw [List.map_cons, List.flatten_cons, ih]
      by_cases hemp : ((entries.filter (passesFilters config cm sm)).filter
          (fun e => e.category == c)).isEmpty = true
      · rw [if_pos hemp] at heq
        exact absurd heq (by simp)
      · rw [if_neg hemp] at heq
        injection heq with heq'
        rw [← heq']

theorem all_nodup : IntegrationCategory.all.Nodup := by decide

/-- C5: with valid filters, the List result is grouped by category:
the group keys follow `IntegrationCategory`'s declaration order (whose
label text is not alphabetically sorted), each group is a nonempty
subsequence of the catalog (catalog declaration order preserved) whose
entries all carry the group's category, and with no filters the groups
flatten to a permutation of the whole catalog — every entry exactly
once. -/
theorem C5_list_grouped_declaration_order {Config : Type}
    (entries : List (IntegrationEntry Config)) (config : Config)
    (cf sf : Option String)
    (cm : Option IntegrationCategory) (sm : Option IntegrationStatus)
    (hc : transposeParse parse_category_filter cf = .ok cm)
    (hs : transposeParse parse_status_filter sf = .ok sm) :
    ∃ groups, list_integrations entries config cf sf = .ok groups ∧
      List.Sublist (groups.map Prod.fst) IntegrationCategory.all ∧
      (∀ p ∈ groups, List.Sublist p.2 entries ∧ p.2 ≠ [] ∧ ∀ e ∈ p.2, e.category = p.1) ∧
      (cf = none → sf = none →
        List.Perm ((groups.map Prod.snd).flatten) entries) ∧
      IntegrationCategory.all =
        [.Chat, .AiModel, .Productivity, .MusicAudio, .SmartHome,
         .ToolsAutomation, .MediaCreative, .Social, .Platform] ∧
      ¬ List.Sorted (fun a b : String => charListLe a.data b.data = true)
          (IntegrationCategory.all.map IntegrationCategory.label) := by
  refine ⟨groupsFor entries config cm sm,
    list_integrations_ok entries config cf sf cm sm hc hs,
    groupsFor_map_fst_sublist entries config cm sm,
    groupsFor_group_shape entries config cm sm, ?_, rfl, by decide⟩
  intro hcf hsf
  subst hcf hsf
  have hcm : cm = none := by
    simp only [transposeParse] at hc
    cases hc
    rfl
  have hsm : sm = none := by
    simp only [transposeParse] at hs
    cases hs
    rfl
  subst hcm hsm
  rw [groupsFor_flatten_eq, passesFilters_none_none]
  refine (buckets_flatten_perm entries IntegrationCategory.all all_nodup).trans ?_
  rw [List.filter_eq_self.mpr (fun a _ => by simp [IntegrationCategory.mem_all])]

/-- Witness for C5 on a concrete catalog whose declaration order
differs from category order. -/
theorem C5_list_grouped_declaration_order_witness :
    ∃ groups, list_integrations [orEntry, tgEntry] () none none = .ok groups ∧
      List.Sublist (groups.map Prod.fst) IntegrationCategory.all ∧
      (∀ p ∈ groups, List.Sublist p.2 [orEntry, tgEntry] ∧ p.2 ≠ [] ∧
        ∀ e ∈ p.2, e.category = p.1) ∧
      (none = (none : Option String) → none = (none : Option String) →
        List.Perm ((groups.map Prod.snd).flatten) [orEntry, tgEntry]) ∧
      IntegrationCategory.all =
        [.Chat, .AiModel, .Productivity, .MusicAudio, .SmartHome,
         .ToolsAutomation, .MediaCreative, .Social, .Platform] ∧
      ¬ List.Sorted (fun a b : String => charListLe a.data b.data = true)
          (IntegrationCategory.all.map IntegrationCategory.label) :=
  C5_list_grouped_declaration_order [orEntry, tgEntry] () none none none none rfl rfl

/-! ## Search (C3, C6) -/

theorem containsSub_nil (hay : List Char) : containsSub [] hay = true := by
  cases hay <;> simp [containsSub, leadsWith]

theorem charListLe_total : ∀ x y : List Char, (charListLe x y || charListLe y x) = true := by
  intro x
  induction x with
  | nil => intro y; simp [charListLe]
  | cons a as ih =>
    intro y
    cases y with
    | nil => simp [charListLe]
    | cons b bs =>
      simp only [charListLe]
      rcases lt_trichotomy a b with h | h | h
      · simp [h]
      · subst h
        simpa using ih bs
      · simp [h, lt_asymm h, h.ne']

theorem charListLe_trans :
    ∀ x y z : List Char, charListLe x y = true → charListLe y z = true →
      charListLe x z = true := by
  intro x
  induction x with
  | nil => intro y z _ _; simp [charListLe]
  | cons a as ih =>
    intro y z hxy hyz
    cases y with
    | nil => simp [charListLe] at hxy
    | cons b bs =>
      cases z with
      | nil => simp [charListLe] at hyz
      | cons c cs =>
        simp only [charListLe, Bool.or_eq_true, Bool.and_eq_true, beq_iff_eq,
          decide_eq_true_eq] at hxy hyz ⊢
        rcases hxy with h1 | ⟨rfl, h1⟩
        · rcases hyz with h2 | ⟨rfl, h2⟩
          · exact Or.inl (h1.trans h2)
          · exact Or.inl h1
        · rcases hyz with h2 | ⟨rfl, h2⟩
          · exact Or.inl h2
          · exact Or.inr ⟨rfl, ih bs cs h1 h2⟩

/-- The sorted result `search_integrations` produces on success. -/
def searchResultsFor {Config : Type} (entries : List (IntegrationEntry Config))
    (config : Config) (query : String)
    (category_match : Option IntegrationCategory)
    (status_match : Option IntegrationStatus) : List (IntegrationEntry Config) :=
  (entries.filter (fun entry =>
    (containsSub (strToLower query).data (strToLower entry.name).data
      || containsSub (strToLower query).data (strToLower entry.description).data)
    && passesFilters config category_match status_match entry)).mergeSort
    (fun a b => charListLe a.name.data b.name.data)

theorem search_integrations_ok {Config : Type} (entries : List (IntegrationEntry Config))
    (config : Config) (query : String) (cf sf : Option String)
    (cm : Option IntegrationCategory) (sm : Option IntegrationStatus)
    (hc : transposeParse parse_category_filter cf = .ok cm)
    (hs : transposeParse parse_status_filter sf = .ok sm) :
    search_integrations entries config query cf sf =
      .ok (searchResultsFor entries config query cm sm) := by
  unfold search_integrations searchResultsFor
  rw [hc, hs]

/-- C3: with valid filters, Search succeeds together with List, and an
entry is in the Search result exactly when the lowercased query is a
substring of its lowercased name or description AND the entry passes
the same category/status filter acceptance as the List operation. -/
theorem C3_search_inclusion_iff {Config : Type} (entries : List (IntegrationEntry Config))
    (config : Config) (query : String) (cf sf : Option String)
    (cm : Option IntegrationCategory) (sm : Option IntegrationStatus)
    (hc : transposeParse parse_category_filter cf = .ok cm)
    (hs : transposeParse parse_status_filter sf = .ok sm) :
    ∃ results groups,
      search_integrations entries config query cf sf = .ok results ∧
      list_integrations entries config cf sf = .ok groups ∧
      ∀ e, e ∈ results ↔
        ((containsSub (strToLower query).data (strToLower e.name).data = true ∨
          containsSub (strToLower query).data (strToLower e.description).data = true) ∧
         (∃ p ∈ groups, e ∈ p.2)) := by
  refine ⟨searchResultsFor entries config query cm sm, groupsFor entries config cm sm,
    search_integrations_ok entries config query cf sf cm sm hc hs,
    list_integrations_ok entries config cf sf cm sm hc hs, fun e => ?_⟩
  rw [groupsFor_mem_iff]
  simp only [searchResultsFor, List.mem_mergeSort, List.mem_filter,
    Bool.and_eq_true, Bool.or_eq_true]
  tauto

/-- Witness for C3 on a concrete catalog and query. -/
theorem C3_search_inclusion_iff_witness :
    ∃ results groups,
      search_integrations [tgEntry, orEntry] () "router" none none = .ok results ∧
      list_integrations [tgEntry, orEntry] () none none = .ok groups ∧
      ∀ e, e ∈ results ↔
        ((containsSub (strToLower "router").data (strToLower e.name).data = true ∨
          containsSub (strToLower "router").data (strToLower e.description).data = true) ∧
         (∃ p ∈ groups, e ∈ p.2)) :=
  C3_search_inclusion_iff [tgEntry, orEntry] () "router" none none none none rfl rfl

/-- C6: with valid filters, the Search result is sorted by entry name
in ascending ordinal order and is a permutation of the surviving
entries; the empty query matches every entry, so with an empty query
the result is a permutation of the filter survivors, and with no
filters at all it is all catalog entries exactly once, sorted by
name. -/
theorem C6_search_sorted_by_name {Config : Type} (entries : List (IntegrationEntry Config))
    (config : Config) (query : String) (cf sf : Option String)
    (cm : Option IntegrationCategory) (sm : Option IntegrationStatus)
    (hc : transposeParse parse_category_filter cf = .ok cm)
    (hs : transposeParse parse_status_filter sf = .ok sm) :
    ∃ results, search_integrations entries config query cf sf = .ok results ∧
      List.Pairwise (fun a b => charListLe a.name.data b.name.data = true) results ∧
      List.Perm results (entries.filter (fun entry =>
        (containsSub (strToLower query).data (strToLower entry.name).data
          || containsSub (strToLower query).data (strToLower entry.description).data)
        && passesFilters config cm sm entry)) ∧
      (query = "" → List.Perm results (entries.filter (passesFilters config cm sm))) ∧
      (query = "" → cf = none → sf = none → List.Perm results entries) := by
  refine ⟨searchResultsFor entries config query cm sm,
    search_integrations_ok entries config query cf sf cm sm hc hs,
    @List.sorted_mergeSort (IntegrationEntry Config)
      (fun a b => charListLe a.name.data b.name.data)
      (fun a b c hab hbc => charListLe_trans _ _ _ hab hbc)
      (fun a b => charListLe_total _ _) _,
    List.mergeSort_perm _ _, ?_, ?_⟩
  · intro hq
    subst hq
    have hfix : entries.filter (fun entry =>
        (containsSub (strToLower "").data (strToLower entry.name).data
          || containsSub (strToLower "").data (strToLower entry.description).data)
        && passesFilters config cm sm entry) =
        entries.filter (passesFilters config cm sm) :=
      List.filter_congr (fun a _ => by
        simp [show (strToLower "").data = [] from rfl, containsSub_nil])
    unfold searchResultsFor
    rw [hfix]
    exact List.mergeSort_perm _ _
  · intro hq hcf hsf
    subst hq hcf hsf
    have hcm : cm = none := by
      simp only [transposeParse] at hc
      cases hc
      rfl
    have hsm : sm = none := by
      simp only [transposeParse] at hs
      cases hs
      rfl
    subst hcm hsm
    have hfix : entries.filter (fun entry =>
        (containsSub (strToLower "").data (strToLower entry.name).data
          || containsSub (strToLower "").data (strToLower entry.description).data)
        && passesFilters config none none entry) = entries :=
      List.filter_eq_self.mpr (fun a _ => by
        simp [show (strToLower "").data = [] from rfl, containsSub_nil, passesFilters])
    unfold searchResultsFor
    rw [hfix]
    exact List.mergeSort_perm _ _

/-- Witness for C6 with the empty query and no filters. -/
theorem C6_search_sorted_by_name_witness :
    ∃ results, search_integrations [tgEntry, orEntry] () "" none none = .ok results ∧
      List.Pairwise (fun a b => charListLe a.name.data b.name.data = true) results ∧
      List.Perm results ([tgEntry, orEntry].filter (fun entry =>
        (containsSub (strToLower "").data (strToLower entry.name).data
          || containsSub (strToLower "").data (strToLower entry.description).data)
        && passesFilters () none none entry)) ∧
      ("" = "" → List.Perm results ([tgEntry, orEntry].filter (passesFilters () none none))) ∧
      ("" = "" → (none : Option String) = none → (none : Option String) = none →
        List.Perm results [tgEntry, orEntry]) :=
  C6_search_sorted_by_name [tgEntry, orEntry] () "" none none none none rfl rfl

/-! ## Filter-error propagation (C8) -/

/-- C8: if the category filter fails to normalize, or the category
filter succeeds and the status filter fails, then List and Search both
fail with exactly that normalization error — for any catalog, any
configuration and any query, so no result entry is ever produced and
the outcome is an `Except.error`, distinct from a successful empty
result. -/
theorem C8_filter_error_fails_whole_query {Config : Type}
    (entries entries' : List (IntegrationEntry Config)) (config config' : Config)
    (query : String) (cf sf : Option String) (err : FilterError)
    (h : transposeParse parse_category_filter cf = .error err ∨
      ((∃ cm, transposeParse parse_category_filter cf = .ok cm) ∧
        transposeParse parse_status_filter sf = .error err)) :
    list_integrations entries config cf sf = .error err ∧
    list_integrations entries' config' cf sf = .error err ∧
    search_integrations entries config query cf sf = .error err ∧
    search_integrations entries' config' query cf sf = .error err := by
  unfold list_integrations search_integrations
  rcases h with hc | ⟨⟨cm, hc⟩, hs⟩
  · rw [hc]
    exact ⟨rfl, rfl, rfl, rfl⟩
  · rw [hc, hs]
    exact ⟨rfl, rfl, rfl, rfl⟩

/-- Witness for C8: an invalid status filter fails List and Search on
two different catalogs with the same error. -/
theorem C8_filter_error_fails_whole_query_witness :
    list_integrations [tgEntry, orEntry] () (some "chat") (some "nope") =
      .error ⟨"nope", validStatusOptions⟩ ∧
    list_integrations ([] : List (IntegrationEntry Unit)) () (some "chat") (some "nope") =
      .error ⟨"nope", validStatusOptions⟩ ∧
    search_integrations [tgEntry, orEntry] () "q" (some "chat") (some "nope") =
      .error ⟨"nope", validStatusOptions⟩ ∧
    search_integrations ([] : List (IntegrationEntry Unit)) () "q" (some "chat") (some "nope") =
      .error ⟨"nope", validStatusOptions⟩ :=
  C8_filter_error_fails_whole_query [tgEntry, orEntry] [] () () "q"
    (some "chat") (some "nope") ⟨"nope", validStatusOptions⟩
    (Or.inr ⟨⟨some .Chat, rfl⟩, rfl⟩)
